import Mathlib

set_option autoImplicit false

/-!
Shallow embedding of the core of this libtorrent snapshot and proofs about it:

* the DHT node request handling (`src/trunk/src/kademlia/node.cpp`),
* the alert queue (`src/branches/alert_queue/src/alert_manager.cpp`),
* the disk I/O write-back cache flush paths
  (`src/branches/libtorrent_aio_policy_refactor/src/disk_io_thread.cpp`).

Machine integers of the source are modelled as `Nat` (all the quantities
involved are non-negative in the source and far from any overflow boundary
on the inputs considered).  SHA-1 and Ed25519 are external collaborators of
the node and are kept opaque, exactly as the specification treats them.
-/

/-! ## DHT write tokens (node.cpp lines 116-170 and 208-212) -/

/-- A write token: in the source, the first 4 bytes of
SHA-1(address-string ++ secret ++ info-hash).  The 4-byte value is kept
opaque here. -/
abbrev Token := Nat

/-- The two rolling secrets `m_secret[0]` and `m_secret[1]` of `node`. -/
structure NodeSecrets where
  s0 : Nat
  s1 : Nat
deriving DecidableEq, Repr

/-- `node::generate_token` (node.cpp:154): hash the peer's address string,
`m_secret[0]` and the info-hash; `tokenHash` stands for the opaque
truncated SHA-1, applied to exactly those three inputs. -/
def generate_token (tokenHash : String → Nat → Nat → Token)
    (sec : NodeSecrets) (addr : String) (infoHash : Nat) : Token :=
  tokenHash addr sec.s0 infoHash

/-- `node::verify_token` (node.cpp:120): accept a token that matches the
truncated hash under either the current secret or the previous one. -/
def verify_token (tokenHash : String → Nat → Nat → Token)
    (sec : NodeSecrets) (token : Token) (infoHash : Nat) (addr : String) : Bool :=
  token == tokenHash addr sec.s0 infoHash || token == tokenHash addr sec.s1 infoHash

/-- `node::new_write_key` (node.cpp:208): the current secret moves to slot 1
and slot 0 receives a fresh random value `r`. -/
def new_write_key (r : Nat) (sec : NodeSecrets) : NodeSecrets :=
  { s0 := r, s1 := sec.s0 }

/-- C5: a token generated for `(addr, infoHash)` is accepted right away and
still accepted after one call to `new_write_key`; after two calls it is
rejected, given that the fresh random secrets differ from the secret the
token was made with (the truncated hash is treated as collision-free in its
secret argument, the standard idealisation of the MAC). -/
theorem token_lifetime (tokenHash : String → Nat → Nat → Token)
    (sec : NodeSecrets) (addr : String) (infoHash : Nat) (r1 r2 : Nat)
    (hinj : ∀ a b : Nat, tokenHash addr a infoHash = tokenHash addr b infoHash → a = b)
    (h1 : r1 ≠ sec.s0) (h2 : r2 ≠ sec.s0) :
    verify_token tokenHash sec
      (generate_token tokenHash sec addr infoHash) infoHash addr = true
    ∧ verify_token tokenHash (new_write_key r1 sec)
      (generate_token tokenHash sec addr infoHash) infoHash addr = true
    ∧ verify_token tokenHash (new_write_key r2 (new_write_key r1 sec))
      (generate_token tokenHash sec addr infoHash) infoHash addr = false := by
  refine ⟨?_, ?_, ?_⟩
  · simp [verify_token, generate_token]
  · simp [verify_token, generate_token, new_write_key]
  · simp only [verify_token, generate_token, new_write_key, Bool.or_eq_false_iff,
      beq_eq_false_iff_ne, ne_eq]
    exact ⟨fun h => h2 (hinj r2 sec.s0 h.symm), fun h => h1 (hinj r1 sec.s0 h.symm)⟩

/-- Witness for `token_lifetime` at a concrete collision-free hash. -/
theorem token_lifetime_witness :
    verify_token (fun _ s _ => s) ⟨0, 1⟩
      (generate_token (fun _ s _ => s) ⟨0, 1⟩ "a" 5) 5 "a" = true
    ∧ verify_token (fun _ s _ => s) (new_write_key 2 ⟨0, 1⟩)
      (generate_token (fun _ s _ => s) ⟨0, 1⟩ "a" 5) 5 "a" = true
    ∧ verify_token (fun _ s _ => s) (new_write_key 3 (new_write_key 2 ⟨0, 1⟩))
      (generate_token (fun _ s _ => s) ⟨0, 1⟩ "a" 5) 5 "a" = false :=
  token_lifetime (fun _ s _ => s) ⟨0, 1⟩ "a" 5 2 3
    (fun _ _ h => h) (by decide) (by decide)

/-! ## BEP-44 mutable put, existing-item branch (node.cpp lines 1202-1242) -/

/-- A stored BEP-44 mutable item (`dht_mutable_item`): value bytes,
signature, sequence number and public key.  The salt and the announcer
bookkeeping are not touched by the existing-item branch and are elided. -/
structure MutableItem where
  value : List Nat
  sig : Nat
  seq : Nat
  key : Nat
deriving DecidableEq, Repr

/-- The fields of a `put` query used by the existing-item branch. -/
structure PutMsg where
  seq : Nat
  value : List Nat
  sig : Nat
  cas : Option Nat
deriving DecidableEq, Repr

/-- The CAS test of node.cpp:1212: a `cas` field is present and the stored
sequence number differs from it. -/
def cas_mismatch (cas : Option Nat) (storedSeq : Nat) : Bool :=
  match cas with
  | some c => storedSeq != c
  | none => false

/-- The existing-item branch of the mutable `put` handler
(node.cpp:1202-1242), entered once the token and the Ed25519 signature have
been verified: CAS mismatch → KRPC error 301; stored seq strictly larger →
error 302; replacement of value/sig/seq only on a strictly larger message
seq; on an equal seq the item is left as is (and the put is answered as a
success). -/
def put_mutable_existing (item : MutableItem) (m : PutMsg) : Except Nat MutableItem :=
  if cas_mismatch m.cas item.seq then Except.error 301
  else if m.seq < item.seq then Except.error 302
  else if item.seq < m.seq then
    Except.ok { value := m.value, sig := m.sig, seq := m.seq, key := item.key }
  else Except.ok item

/-- C6: on a put against an already-stored mutable item, a `cas` differing
from the stored seq yields error 301; otherwise a message seq strictly below
the stored seq yields error 302; and the stored value, signature and seq are
replaced exactly when the message seq is strictly greater (any successful
put with a non-greater seq leaves the item unchanged).  An error reply never
returns a new item, so the store is unchanged in the error cases. -/
theorem put_mutable_cas_seq (item : MutableItem) (m : PutMsg) :
    (∀ c, m.cas = some c → c ≠ item.seq →
      put_mutable_existing item m = Except.error 301)
    ∧ ((m.cas = none ∨ m.cas = some item.seq) → m.seq < item.seq →
      put_mutable_existing item m = Except.error 302)
    ∧ (∀ r, put_mutable_existing item m = Except.ok r →
      (item.seq < m.seq
          ∧ r = { value := m.value, sig := m.sig, seq := m.seq, key := item.key })
        ∨ (¬ item.seq < m.seq ∧ r = item)) := by
  refine ⟨?_, ?_, ?_⟩
  · intro c hc hne
    simp [put_mutable_existing, cas_mismatch, hc, bne_iff_ne, Ne.symm hne]
  · intro hcas hlt
    rcases hcas with h | h <;>
      simp [put_mutable_existing, cas_mismatch, h, hlt]
  · intro r hr
    unfold put_mutable_existing at hr
    split at hr
    · exact absurd hr (by simp)
    · split at hr
      · exact absurd hr (by simp)
      · split at hr
        · left
          exact ⟨by omega, by injection hr with h; exact h.symm⟩
        · right
          exact ⟨by omega, by injection hr with h; exact h.symm⟩

/-- Witness for `put_mutable_cas_seq`: CAS 4 against stored seq 5 is
rejected with 301. -/
theorem put_mutable_cas_seq_witness :
    put_mutable_existing ⟨[1], 0, 5, 9⟩ ⟨6, [2], 3, some 4⟩ = Except.error 301 :=
  (put_mutable_cas_seq ⟨[1], 0, 5, 9⟩ ⟨6, [2], 3, some 4⟩).1 4 rfl (by decide)

/-! ## BEP-44 get branch (node.cpp lines 1257-1317) -/

/-- The item part of a reply to a `get` query (the token and the closest
nodes are always added and are elided here). -/
structure GetReply where
  v : Option (List Nat)
  seq : Option Nat
  sig : Option Nat
  k : Option Nat
deriving DecidableEq, Repr

/-- The `get` branch of `node::incoming_request` (node.cpp:1257-1317):
when the query carries no `seq`, the immutable table is searched first and a
hit answers with `v` alone; otherwise the mutable table is consulted, the
stored seq is always included, and `v`/`sig`/`k` are included exactly when
the query carried no `seq` or the caller's seq is strictly below the stored
one. -/
def get_item_reply (itab : Nat → Option (List Nat)) (mtab : Nat → Option MutableItem)
    (target : Nat) (callerSeq : Option Nat) : GetReply :=
  let base : GetReply := ⟨none, none, none, none⟩
  let iOpt := match callerSeq with
    | none => itab target
    | some _ => none
  match iOpt with
  | some value => { base with v := some value }
  | none =>
    match mtab target with
    | some f =>
      let includeV := match callerSeq with
        | none => true
        | some cs => decide (cs < f.seq)
      { v := if includeV then some f.value else none
        seq := some f.seq
        sig := if includeV then some f.sig else none
        k := if includeV then some f.key else none }
    | none => base

/-- A concrete store holding the same 20-byte target in both tables. -/
def immutStoreCex : Nat → Option (List Nat) := fun t => if t = 0 then some [7] else none

/-- The mutable half of the concrete store of `immutStoreCex`. -/
def mutStoreCex : Nat → Option MutableItem := fun t => if t = 0 then some ⟨[8], 1, 3, 2⟩ else none

/-- C7 counterexample: target 0 is stored in the mutable table (seq 3), yet a
`get` for it with no caller seq does not contain the stored seq — the
immutable table is consulted first and its hit answers with `v` alone. -/
theorem get_mutable_seq_cex :
    mutStoreCex 0 = some ⟨[8], 1, 3, 2⟩
    ∧ (get_item_reply immutStoreCex mutStoreCex 0 none).seq ≠ some 3 := by
  constructor
  · rfl
  · decide

/-- C7 amended: for a `get` on a target stored in the mutable table, provided
the target is not also stored in the immutable table or the caller supplied
a seq, the reply contains the stored seq, and it contains `v`, `sig` and `k`
if and only if the caller supplied no seq or the stored seq is strictly
greater; moreover a `get` query that carries a seq never consults the
immutable table. -/
theorem get_mutable_reply (itab : Nat → Option (List Nat))
    (mtab : Nat → Option MutableItem) (t : Nat) (item : MutableItem)
    (cs : Option Nat) (hm : mtab t = some item)
    (hside : itab t = none ∨ cs ≠ none) :
    (get_item_reply itab mtab t cs).seq = some item.seq
    ∧ ((get_item_reply itab mtab t cs).v = some item.value
        ∧ (get_item_reply itab mtab t cs).sig = some item.sig
        ∧ (get_item_reply itab mtab t cs).k = some item.key
      ↔ cs = none ∨ ∃ c, cs = some c ∧ c < item.seq)
    ∧ (∀ (itab2 : Nat → Option (List Nat)) (mtab2 : Nat → Option MutableItem)
        (t2 c2 : Nat),
        get_item_reply itab2 mtab2 t2 (some c2)
          = get_item_reply (fun _ => none) mtab2 t2 (some c2)) := by
  have hrep : get_item_reply itab mtab t cs =
      let includeV := match cs with
        | none => true
        | some c => decide (c < item.seq)
      { v := if includeV then some item.value else none
        seq := some item.seq
        sig := if includeV then some item.sig else none
        k := if includeV then some item.key else none } := by
    cases cs with
    | none =>
      rcases hside with h | h
      · simp [get_item_reply, h, hm]
      · exact absurd rfl h
    | some c => simp [get_item_reply, hm]
  refine ⟨?_, ?_, ?_⟩
  · rw [hrep]
  · rw [hrep]
    cases cs with
    | none => simp
    | some c =>
      by_cases hlt : c < item.seq
      · simp [hlt]
      · simp [hlt]
  · intro itab2 mtab2 t2 c2
    simp [get_item_reply]

/-- Witness for `get_mutable_reply` at a concrete mutable-only store. -/
theorem get_mutable_reply_witness :
    (get_item_reply (fun _ => none) mutStoreCex 0 none).seq = some 3 :=
  (get_mutable_reply (fun _ => none) mutStoreCex 0 ⟨[8], 1, 3, 2⟩ none rfl
    (Or.inl rfl)).1

/-! ## announce_peer eviction (node.cpp lines 981-1027) -/

/-- One entry of the torrent map `m_map`, reduced to what the eviction scan
reads: the info-hash key and `peers.size()`.  The map itself is modelled as
the list of its entries in iteration order. -/
abbrev TorrentMap := List (Nat × Nat)

/-- One step of the eviction scan of node.cpp:993-1000: an entry with more
peers than the current fewest is skipped, the announced info-hash itself is
skipped, any other entry becomes the new candidate. -/
def evict_scan_step (infoHash : Nat) (cand e : Nat × Nat) : Nat × Nat :=
  if cand.2 < e.2 then cand
  else if e.1 = infoHash then cand
  else e

/-- The candidate selection of node.cpp:991-1000: `num_peers` and
`candidate` start at `begin()` and the loop runs over the whole map. -/
def evict_candidate (infoHash : Nat) : TorrentMap → Option (Nat × Nat)
  | [] => none
  | e :: rest => some ((e :: rest).foldl (evict_scan_step infoHash) e)

/-- The new-info-hash path of the `announce_peer` branch
(node.cpp:981-1027): when the map is non-empty and holds at least
`max_torrents` entries, the candidate with the fewest peers is erased; then
the fresh entry is added (with the single announcing peer). -/
def announce_new_torrent (maxTorrents infoHash : Nat) (l : TorrentMap) : TorrentMap :=
  let pruned :=
    if l ≠ [] ∧ maxTorrents ≤ l.length then
      match evict_candidate infoHash l with
      | some c => l.eraseP (fun e => e.1 == c.1)
      | none => l
    else l
  pruned ++ [(infoHash, 1)]

/-- The eviction scan always returns either its starting candidate or a
later entry that is not the announced info-hash, never increases the peer
count of the candidate, and ends at most as large as every non-skipped
entry. -/
theorem evict_scan_spec (infoHash : Nat) (l : TorrentMap) (cand : Nat × Nat) :
    (l.foldl (evict_scan_step infoHash) cand = cand
      ∨ (l.foldl (evict_scan_step infoHash) cand ∈ l
          ∧ (l.foldl (evict_scan_step infoHash) cand).1 ≠ infoHash))
    ∧ (l.foldl (evict_scan_step infoHash) cand).2 ≤ cand.2
    ∧ ∀ e ∈ l, e.1 ≠ infoHash → (l.foldl (evict_scan_step infoHash) cand).2 ≤ e.2 := by
  induction l generalizing cand with
  | nil => simp
  | cons e rest ihr =>
    have hstep : (evict_scan_step infoHash cand e = cand
        ∨ (evict_scan_step infoHash cand e = e ∧ e.1 ≠ infoHash))
        ∧ (evict_scan_step infoHash cand e).2 ≤ cand.2
        ∧ (e.1 ≠ infoHash → (evict_scan_step infoHash cand e).2 ≤ e.2) := by
      unfold evict_scan_step
      split
      next h1 => exact ⟨Or.inl rfl, le_refl _, fun _ => le_of_lt h1⟩
      next h1 =>
        split
        next h2 => exact ⟨Or.inl rfl, le_refl _, fun hne => absurd h2 hne⟩
        next h2 => exact ⟨Or.inr ⟨rfl, h2⟩, le_of_not_lt h1, fun _ => le_refl _⟩
    obtain ⟨hs1, hs2, hs3⟩ := hstep
    obtain ⟨hr1, hr2, hr3⟩ := ihr (evict_scan_step infoHash cand e)
    simp only [List.foldl_cons]
    refine ⟨?_, le_trans hr2 hs2, ?_⟩
    · rcases hr1 with h | ⟨hmem, hne⟩
      · rw [h]
        rcases hs1 with h2 | ⟨h2, hne⟩
        · exact Or.inl h2
        · exact Or.inr ⟨by rw [h2]; exact List.mem_cons_self e rest, by rw [h2]; exact hne⟩
      · exact Or.inr ⟨List.mem_cons_of_mem e hmem, hne⟩
    · intro x hx hxne
      rcases List.mem_cons.mp hx with rfl | hx
      · exact le_trans hr2 (hs3 hxne)
      · exact hr3 x hx hxne

/-- C8: a valid `announce_peer` for an info-hash absent from a full torrent
map evicts exactly one existing entry before the new one is added; the
evicted entry has the fewest peers among the stored entries and is never the
announced info-hash (the map size is unchanged overall: one out, one in). -/
theorem announce_evicts_fewest (maxTorrents infoHash : Nat) (l : TorrentMap)
    (hfull : maxTorrents ≤ l.length) (hne : l ≠ [])
    (habsent : ∀ e ∈ l, e.1 ≠ infoHash) :
    ∃ c, evict_candidate infoHash l = some c
      ∧ c ∈ l
      ∧ c.1 ≠ infoHash
      ∧ (∀ e ∈ l, c.2 ≤ e.2)
      ∧ announce_new_torrent maxTorrents infoHash l
          = l.eraseP (fun e => e.1 == c.1) ++ [(infoHash, 1)]
      ∧ (announce_new_torrent maxTorrents infoHash l).length = l.length := by
  obtain ⟨e, rest, rfl⟩ : ∃ e rest, l = e :: rest := by
    cases l with
    | nil => exact absurd rfl hne
    | cons e rest => exact ⟨e, rest, rfl⟩
  set l := e :: rest with hl
  set c := l.foldl (evict_scan_step infoHash) e with hc
  obtain ⟨hmem0, hle0, hmin⟩ := evict_scan_spec infoHash l e
  have hcmem : c ∈ l := by
    rcases hmem0 with h | ⟨h, _⟩
    · rw [← hc] at h
      rw [h]
      exact List.mem_cons_self e rest
    · rw [← hc] at h
      exact h
  have hcne : c.1 ≠ infoHash := habsent c hcmem
  have hcmin : ∀ x ∈ l, c.2 ≤ x.2 := fun x hx => hmin x hx (habsent x hx)
  have hcand : evict_candidate infoHash l = some c := by
    rw [hl, evict_candidate, ← hl, ← hc]
  have hcond : l ≠ [] ∧ maxTorrents ≤ l.length := ⟨hne, hfull⟩
  have hann : announce_new_torrent maxTorrents infoHash l
      = l.eraseP (fun x => x.1 == c.1) ++ [(infoHash, 1)] := by
    rw [announce_new_torrent]
    simp only [if_pos hcond, hcand]
  refine ⟨c, hcand, hcmem, hcne, hcmin, hann, ?_⟩
  rw [hann]
  have hlen : (l.eraseP (fun x => x.1 == c.1)).length = l.length - 1 :=
    List.length_eraseP_of_mem hcmem (by simp)
  have hpos : 1 ≤ l.length := by
    rw [hl]
    simp
  simp only [List.length_append, hlen, List.length_singleton]
  omega

/-- Witness for `announce_evicts_fewest`: a full map of two entries, the
entry with fewer peers is evicted. -/
theorem announce_evicts_fewest_witness :
    ∃ c, evict_candidate 9 [(1, 5), (2, 3)] = some c
      ∧ c ∈ [(1, 5), (2, 3)]
      ∧ c.1 ≠ 9
      ∧ (∀ e ∈ [(1, 5), (2, 3)], c.2 ≤ e.2)
      ∧ announce_new_torrent 2 9 [(1, 5), (2, 3)]
          = ([(1, 5), (2, 3)] : TorrentMap).eraseP (fun e => e.1 == c.1) ++ [(9, 1)]
      ∧ (announce_new_torrent 2 9 [(1, 5), (2, 3)]).length = 2 :=
  announce_evicts_fewest 2 9 [(1, 5), (2, 3)] (by decide) (by decide)
    (by decide)

/-! ## Alert queue (alert_manager.cpp lines 44-57 and 168-185) -/

/-- The alert manager state: the queued alerts in order (each alert an
opaque identifier) and `m_num_queued_resume`, the count of queued
resume-data alerts. -/
structure AlertManager where
  alerts : List Nat
  numQueuedResume : Nat
deriving DecidableEq, Repr

/-- `alert_manager::get_all` (alert_manager.cpp:168): record the resume
count, clear the caller's queue, and when the internal queue is non-empty
swap it into the caller's and zero the resume count.  Returns the caller's
queue after the call, the reported resume count, and the new manager
state. -/
def get_all (m : AlertManager) (_callerQueue : List Nat) :
    List Nat × Nat × AlertManager :=
  let numResume := m.numQueuedResume
  let cleared : List Nat := []
  if m.alerts.isEmpty then (cleared, numResume, m)
  else (m.alerts, numResume, { alerts := cleared, numQueuedResume := 0 })

/-- `alert_manager::pending` (alert_manager.cpp:181). -/
def pending (m : AlertManager) : Bool :=
  !m.alerts.isEmpty

/-- `alert_manager::num_queued_resume` (alert_manager.cpp:52). -/
def num_queued_resume (m : AlertManager) : Nat :=
  m.numQueuedResume

/-- C9: under the manager's asserted invariant
`m_num_queued_resume <= m_alerts.size()`, `get_all` moves every queued alert
in queue order into the caller's queue, reports the number of queued
resume-data alerts, and leaves the manager empty: `pending` is false and
`num_queued_resume` is 0 afterwards. -/
theorem alert_get_all_drains (m : AlertManager) (q : List Nat)
    (hinv : m.numQueuedResume ≤ m.alerts.length) :
    (get_all m q).1 = m.alerts
    ∧ (get_all m q).2.1 = m.numQueuedResume
    ∧ pending (get_all m q).2.2 = false
    ∧ num_queued_resume (get_all m q).2.2 = 0 := by
  unfold get_all pending num_queued_resume
  by_cases hemp : m.alerts.isEmpty
  · have hnil : m.alerts = [] := List.isEmpty_iff.mp hemp
    have hzero : m.numQueuedResume = 0 := by
      rw [hnil] at hinv
      simpa using hinv
    simp [hemp, hnil, hzero]
  · simp [hemp]

/-- Witness for `alert_get_all_drains` on a two-alert queue. -/
theorem alert_get_all_drains_witness :
    (get_all ⟨[4, 7], 1⟩ [9]).1 = [4, 7]
    ∧ (get_all ⟨[4, 7], 1⟩ [9]).2.1 = 1
    ∧ pending (get_all ⟨[4, 7], 1⟩ [9]).2.2 = false
    ∧ num_queued_resume (get_all ⟨[4, 7], 1⟩ [9]).2.2 = 0 :=
  alert_get_all_drains ⟨[4, 7], 1⟩ [9] (by decide)

/-! ## Unknown-query fallback (node.cpp lines 1318-1340) -/

/-- `bdecode_node::dict_find_string` on the query's argument dict, modelled
as the first binding of the key in an association list of string entries. -/
def dict_find_string (args : List (String × String)) (k : String) : Option String :=
  (args.find? (fun e => e.1 == k)).map Prod.snd

/-- The length test of node.cpp:1324/1327: keep the entry only when it is a
20-byte string. -/
def pick_twenty (o : Option String) : Option String :=
  match o with
  | some s => if s.length = 20 then some s else none
  | none => none

/-- `m_table.find_node(target)` followed by `write_nodes_entry`: kept opaque
(the routing table is an external collaborator of this branch). -/
def find_node_reply (findClosest : String → List Nat) (target : String) : List Nat :=
  findClosest target

/-- The unknown-query fallback of `node::incoming_request`
(node.cpp:1318-1340): try a 20-byte `target` argument, then a 20-byte
`info_hash` argument; with neither, reply with the "unknown message" error,
otherwise reply with the closest nodes for the picked id, exactly as the
`find_node` branch would. -/
def unknown_query_fallback (findClosest : String → List Nat)
    (args : List (String × String)) : Except String (List Nat) :=
  match pick_twenty (dict_find_string args "target") with
  | some s => Except.ok (find_node_reply findClosest s)
  | none =>
    match pick_twenty (dict_find_string args "info_hash") with
    | some s => Except.ok (find_node_reply findClosest s)
    | none => Except.error "unknown message"

/-- C10: the fallback replies with the "unknown message" error iff the
arguments hold neither a 20-byte `target` string nor a 20-byte `info_hash`
string; when a 20-byte `target` is present the reply is the `find_node`
answer for it, and when only a 20-byte `info_hash` is present the reply is
the `find_node` answer for that. -/
theorem unknown_query_fallback_spec (findClosest : String → List Nat)
    (args : List (String × String)) :
    (unknown_query_fallback findClosest args = Except.error "unknown message"
      ↔ ¬ ((∃ s, dict_find_string args "target" = some s ∧ s.length = 20)
          ∨ (∃ s, dict_find_string args "info_hash" = some s ∧ s.length = 20)))
    ∧ (∀ s, dict_find_string args "target" = some s → s.length = 20 →
        unknown_query_fallback findClosest args
          = Except.ok (find_node_reply findClosest s))
    ∧ (∀ s, (∀ s2, dict_find_string args "target" = some s2 → s2.length ≠ 20) →
        dict_find_string args "info_hash" = some s → s.length = 20 →
        unknown_query_fallback findClosest args
          = Except.ok (find_node_reply findClosest s)) := by
  have hpick : ∀ o : Option String,
      (pick_twenty o = none ↔ ¬ ∃ s, o = some s ∧ s.length = 20)
      ∧ (∀ s, o = some s → s.length = 20 → pick_twenty o = some s) := by
    intro o
    cases o with
    | none => simp [pick_twenty]
    | some s =>
      constructor
      · by_cases h : s.length = 20 <;> simp [pick_twenty, h]
      · intro s2 hs2 hlen
        injection hs2 with hs2
        subst hs2
        simp [pick_twenty, hlen]
  refine ⟨?_, ?_, ?_⟩
  · constructor
    · intro herr
      unfold unknown_query_fallback at herr
      intro habs
      rcases habs with ⟨s, hs, hlen⟩ | ⟨s, hs, hlen⟩
      · rw [(hpick (dict_find_string args "target")).2 s hs hlen] at herr
        exact absurd herr (by simp)
      · cases hdt : pick_twenty (dict_find_string args "target") with
        | some s2 =>
          rw [hdt] at herr
          exact absurd herr (by simp)
        | none =>
          rw [hdt, (hpick (dict_find_string args "info_hash")).2 s hs hlen] at herr
          exact absurd herr (by simp)
    · intro hnone
      have h1 : pick_twenty (dict_find_string args "target") = none :=
        (hpick _).1.mpr (fun hex => hnone (Or.inl hex))
      have h2 : pick_twenty (dict_find_string args "info_hash") = none :=
        (hpick _).1.mpr (fun hex => hnone (Or.inr hex))
      unfold unknown_query_fallback
      rw [h1, h2]
  · intro s hs hlen
    unfold unknown_query_fallback
    rw [(hpick _).2 s hs hlen]
  · intro s hnt hs hlen
    have h1 : pick_twenty (dict_find_string args "target") = none := by
      apply (hpick _).1.mpr
      rintro ⟨s2, hs2, hlen2⟩
      exact hnt s2 hs2 hlen2
    unfold unknown_query_fallback
    rw [h1, (hpick _).2 s hs hlen]

/-- Witness for `unknown_query_fallback_spec`: a query with only a 20-byte
`info_hash` is answered as `find_node` for it. -/
theorem unknown_query_fallback_spec_witness :
    unknown_query_fallback (fun _ => [3])
      [("info_hash", "01234567890123456789")]
      = Except.ok (find_node_reply (fun _ => [3]) "01234567890123456789") :=
  (unknown_query_fallback_spec (fun _ => [3])
      [("info_hash", "01234567890123456789")]).2.2 "01234567890123456789"
    (fun s2 h => by simp [dict_find_string] at h)
    (by decide) (by decide)

/-! ## Disk cache flush and rollback
(disk_io_thread.cpp lines 459-510 `build_iovec`, 515-572 `flush_iovec`,
577-628 `iovec_flushed`) -/

/-- Per-block cache metadata (`cached_block_entry`): the buffer (an opaque
identifier, `none` = no buffer), the dirty and pending flags and the
flushing refcount. -/
structure BlockState where
  buf : Option Nat
  dirty : Bool
  pending : Bool
  refcount : Nat
deriving DecidableEq, Repr

/-- The block array of one cached piece, as a map from block index. -/
abbrev PieceBlocks := Nat → BlockState

/-- The selection test of `build_iovec` (disk_io_thread.cpp:489-495): skip
blocks with no buffer, blocks already inside a writev (`pending`) and
non-dirty blocks. -/
def flushable (b : BlockState) : Bool :=
  b.buf.isSome && !b.pending && b.dirty

/-- The `flushing` array `build_iovec` produces for the block range
`[start, min e blocksInPiece)`: the indices of the collected blocks, each
offset by `blockBaseIndex` (disk_io_thread.cpp:497). -/
def build_iovec_flushing (bs : PieceBlocks) (blocksInPiece s e blockBaseIndex : Nat) :
    List Nat :=
  ((List.range (min e blocksInPiece)).filter
    (fun i => decide (s ≤ i) && flushable (bs i))).map (fun i => i + blockBaseIndex)

/-- The state update of `build_iovec` (disk_io_thread.cpp:501-502): every
collected block becomes `pending` and its flushing refcount is
incremented. -/
def build_iovec_mark (bs : PieceBlocks) (blocksInPiece s e : Nat) : PieceBlocks :=
  fun i =>
    if s ≤ i ∧ i < min e blocksInPiece ∧ flushable (bs i) then
      { bs i with pending := true, refcount := (bs i).refcount + 1 }
    else bs i

/-- Modelled from the spec: `block_cache::blocks_flushed` lives in
`block_cache.cpp`, which is not part of this snapshot.  Per the spec's
error-handling design (§7), completing a flush clears `pending` on every
block of the writev and releases its flushing refcount; a successful write
also marks the block clean, while a failed write preserves `dirty` and
retains the buffer, so the write can be retried. -/
def blocks_flushed (bs : PieceBlocks) (flushing : List Nat) (failed : Bool) :
    PieceBlocks :=
  fun i =>
    if i ∈ flushing then
      { bs i with
          pending := false
          dirty := if failed then (bs i).dirty else false
          refcount := (bs i).refcount - 1 }
    else bs i

/-- `disk_io_thread::iovec_flushed` (disk_io_thread.cpp:577-591): translate
the flushing indices back to piece-local ones (subtracting `block_offset`)
and hand them to the cache; on a storage error the piece's queued jobs are
failed and completed (tracked separately from the block state). -/
def iovec_flushed_blocks (bs : PieceBlocks) (flushing : List Nat)
    (blockOffset : Nat) (failed : Bool) : PieceBlocks :=
  blocks_flushed bs (flushing.map (fun j => j - blockOffset)) failed

/-- C1: when a writev issued by `flush_iovec` fails, every block that
`build_iovec` collected into it comes out of `iovec_flushed` with `pending`
cleared, still dirty, and with its buffer retained (the block had a buffer
and was dirty when collected, and both survive the failed flush), so the
write can be retried later. -/
theorem failed_flush_rolls_back (bs : PieceBlocks) (blocksInPiece s e bbi j : Nat)
    (hj : j ∈ build_iovec_flushing bs blocksInPiece s e bbi) :
    (iovec_flushed_blocks (build_iovec_mark bs blocksInPiece s e)
        (build_iovec_flushing bs blocksInPiece s e bbi) bbi true (j - bbi)).pending
      = false
    ∧ (iovec_flushed_blocks (build_iovec_mark bs blocksInPiece s e)
        (build_iovec_flushing bs blocksInPiece s e bbi) bbi true (j - bbi)).dirty
      = true
    ∧ (iovec_flushed_blocks (build_iovec_mark bs blocksInPiece s e)
        (build_iovec_flushing bs blocksInPiece s e bbi) bbi true (j - bbi)).buf
      = (bs (j - bbi)).buf
    ∧ (bs (j - bbi)).buf.isSome = true := by
  obtain ⟨i, hcond, hrange, rfl⟩ : ∃ i, (decide (s ≤ i) && flushable (bs i)) = true
      ∧ i ∈ List.range (min e blocksInPiece) ∧ i + bbi = j := by
    unfold build_iovec_flushing at hj
    obtain ⟨i, hi, hij⟩ := List.mem_map.mp hj
    exact ⟨i, (List.mem_filter.mp hi).2, (List.mem_filter.mp hi).1, hij⟩
  have hsi : s ≤ i := by
    have := (Bool.and_eq_true _ _).mp hcond
    exact of_decide_eq_true this.1
  have hfl : flushable (bs i) = true := ((Bool.and_eq_true _ _).mp hcond).2
  have hlt : i < min e blocksInPiece := List.mem_range.mp hrange
  have hieq : i + bbi - bbi = i := by omega
  have hmem : i + bbi - bbi ∈ (build_iovec_flushing bs blocksInPiece s e bbi).map
      (fun j => j - bbi) := by
    apply List.mem_map.mpr
    refine ⟨i + bbi, ?_, rfl⟩
    unfold build_iovec_flushing
    apply List.mem_map.mpr
    exact ⟨i, List.mem_filter.mpr ⟨hrange, hcond⟩, rfl⟩
  have hdirty : (bs i).dirty = true := by
    unfold flushable at hfl
    exact ((Bool.and_eq_true _ _).mp hfl).2
  have hbuf : (bs i).buf.isSome = true := by
    unfold flushable at hfl
    exact ((Bool.and_eq_true _ _).mp ((Bool.and_eq_true _ _).mp hfl).1).1
  have hmark : build_iovec_mark bs blocksInPiece s e i
      = { bs i with pending := true, refcount := (bs i).refcount + 1 } := by
    unfold build_iovec_mark
    rw [if_pos ⟨hsi, hlt, hfl⟩]
  unfold iovec_flushed_blocks blocks_flushed
  rw [hieq] at hmem ⊢
  rw [if_pos hmem, hmark]
  exact ⟨rfl, by simpa using hdirty, rfl, hbuf⟩

/-- Witness for `failed_flush_rolls_back`: one dirty buffered block,
collected and rolled back. -/
theorem failed_flush_rolls_back_witness :
    (iovec_flushed_blocks
        (build_iovec_mark (fun _ => ⟨some 1, true, false, 0⟩) 4 0 4)
        (build_iovec_flushing (fun _ => ⟨some 1, true, false, 0⟩) 4 0 4 0) 0 true
        (0 - 0)).pending = false
    ∧ (iovec_flushed_blocks
        (build_iovec_mark (fun _ => ⟨some 1, true, false, 0⟩) 4 0 4)
        (build_iovec_flushing (fun _ => ⟨some 1, true, false, 0⟩) 4 0 4 0) 0 true
        (0 - 0)).dirty = true
    ∧ (iovec_flushed_blocks
        (build_iovec_mark (fun _ => ⟨some 1, true, false, 0⟩) 4 0 4)
        (build_iovec_flushing (fun _ => ⟨some 1, true, false, 0⟩) 4 0 4 0) 0 true
        (0 - 0)).buf = ((fun (_ : Nat) => (⟨some 1, true, false, 0⟩ : BlockState)) (0 - 0)).buf
    ∧ (((fun (_ : Nat) => (⟨some 1, true, false, 0⟩ : BlockState)) (0 - 0)).buf).isSome = true :=
  failed_flush_rolls_back (fun _ => ⟨some 1, true, false, 0⟩) 4 0 4 0 0 (by decide)

/-! ## try_flush_hashed (disk_io_thread.cpp lines 205-446) -/

/-- The fields of a `cached_piece_entry` that `try_flush_hashed` reads up to
its single-piece / multi-piece decision.  `hasHash` models `p->hash != 0`
and `hashOffset` the hash cursor `p->hash->offset` in bytes. -/
structure TfhPiece where
  piece : Nat
  blocksInPiece : Nat
  hasHash : Bool
  hashOffset : Nat
  hashingDone : Bool
  numDirty : Nat
  needReadback : Bool
  blocks : PieceBlocks

/-- `end` of disk_io_thread.cpp:226: the whole piece when hashing is done,
otherwise the hash cursor rounded up to whole blocks. -/
def tfh_hashed_end (blockSize : Nat) (p : TfhPiece) : Nat :=
  if p.hashingDone then p.blocksInPiece
  else (p.hashOffset + blockSize - 1) / blockSize

/-- `block_limit` of disk_io_thread.cpp:232-236: `min(cont_block,
blocks_in_piece)`, collapsed to 1 when everything has been hashed. -/
def tfh_block_limit (p : TfhPiece) (contBlock blockSize : Nat) : Nat :=
  if tfh_hashed_end blockSize p = p.blocksInPiece then 1
  else min contBlock p.blocksInPiece

/-- The flush end after the read-back override of disk_io_thread.cpp:238-246:
a piece that needs a read-back anyway is flushed whole. -/
def tfh_flush_end (blockSize : Nat) (p : TfhPiece) : Nat :=
  if p.needReadback then p.blocksInPiece else tfh_hashed_end blockSize p

/-- `num_blocks` of disk_io_thread.cpp:249-251: the dirty non-pending blocks
below the flush end. -/
def count_dirty_nonpending (bs : PieceBlocks) (e : Nat) : Nat :=
  ((List.range e).filter (fun i => (bs i).dirty && !(bs i).pending)).length

/-- What `try_flush_hashed` decides to do: nothing, a single-piece
`flush_range(p, 0, end)`, or the multi-piece stripe attempt over the piece
range `[rangeStart, rangeEnd)`. -/
inductive FlushAction
  | noFlush
  | single (endBlock : Nat)
  | stripe (rangeStart rangeEnd : Nat)
deriving DecidableEq, Repr

/-- The control flow of `disk_io_thread::try_flush_hashed`
(disk_io_thread.cpp:205-278) up to its flush decision: the early no-op
returns (no hash state, no dirty blocks, nothing hashed and no read-back
pending, block limit not reached), then the single-piece path when
`cont_pieces = cont_block / blocks_in_piece <= 1` or
`allow_partial_disk_writes` (here `allowPieceSplit`) is set, else the stripe
attempt over `[range_start, min(range_start + cont_pieces, num_pieces))`
with `range_start = (piece / cont_pieces) * cont_pieces`. -/
def try_flush_hashed_action (allowPieceSplit : Bool) (numPieces blockSize : Nat)
    (p : TfhPiece) (contBlock : Nat) : FlushAction :=
  if (!p.hasHash && !p.hashingDone) then FlushAction.noFlush
  else if p.numDirty = 0 then FlushAction.noFlush
  else if ((tfh_hashed_end blockSize p == 0) && !p.needReadback) then FlushAction.noFlush
  else if count_dirty_nonpending p.blocks (tfh_flush_end blockSize p)
      < tfh_block_limit p contBlock blockSize then FlushAction.noFlush
  else if (decide (contBlock / p.blocksInPiece ≤ 1) || allowPieceSplit) then
    FlushAction.single (tfh_flush_end blockSize p)
  else
    FlushAction.stripe
      ((p.piece / (contBlock / p.blocksInPiece)) * (contBlock / p.blocksInPiece))
      (min ((p.piece / (contBlock / p.blocksInPiece)) * (contBlock / p.blocksInPiece)
          + contBlock / p.blocksInPiece) numPieces)

/-- A fully dirty, fully hashed 4-block write piece. -/
def cexStripePiece : TfhPiece :=
  { piece := 0, blocksInPiece := 4, hasHash := false, hashOffset := 0,
    hashingDone := true, numDirty := 4, needReadback := false,
    blocks := fun _ => ⟨some 1, true, false, 0⟩ }

/-- C2 counterexample: `cont_block = 5` is larger than
`blocks_in_piece = 4` and `allow_partial_disk_writes` is disabled, yet
`try_flush_hashed` takes the single-piece `flush_range` path and not the
stripe attempt, because `cont_pieces = 5 / 4 = 1`. -/
theorem stripe_condition_cex :
    cexStripePiece.blocksInPiece < 5
    ∧ try_flush_hashed_action false 8 16384 cexStripePiece 5 = FlushAction.single 4 := by
  decide

/-- C2 amended: the stripe attempt happens exactly when
`cont_block / blocks_in_piece >= 2` (not merely `cont_block >
blocks_in_piece`), `allow_partial_disk_writes` is disabled and the early
no-op guards pass, and then its piece range is exactly
`[range_start, range_start + cont_pieces)` clamped to the number of pieces,
with `cont_pieces = cont_block / blocks_in_piece` and
`range_start = (piece / cont_pieces) * cont_pieces`; in every other case the
function flushes at most the single piece via `flush_range`. -/
theorem stripe_flush_condition (allowPieceSplit : Bool) (numPieces blockSize : Nat)
    (p : TfhPiece) (contBlock : Nat) :
    (∀ rs re, try_flush_hashed_action allowPieceSplit numPieces blockSize p contBlock
        = FlushAction.stripe rs re →
      2 ≤ contBlock / p.blocksInPiece ∧ allowPieceSplit = false
      ∧ rs = (p.piece / (contBlock / p.blocksInPiece)) * (contBlock / p.blocksInPiece)
      ∧ re = min (rs + contBlock / p.blocksInPiece) numPieces)
    ∧ (contBlock / p.blocksInPiece ≤ 1 ∨ allowPieceSplit = true →
      try_flush_hashed_action allowPieceSplit numPieces blockSize p contBlock
        = FlushAction.noFlush
      ∨ try_flush_hashed_action allowPieceSplit numPieces blockSize p contBlock
        = FlushAction.single (tfh_flush_end blockSize p))
    ∧ (2 ≤ contBlock / p.blocksInPiece → allowPieceSplit = false →
      (p.hasHash = true ∨ p.hashingDone = true) →
      p.numDirty ≠ 0 →
      (tfh_hashed_end blockSize p ≠ 0 ∨ p.needReadback = true) →
      tfh_block_limit p contBlock blockSize
        ≤ count_dirty_nonpending p.blocks (tfh_flush_end blockSize p) →
      try_flush_hashed_action allowPieceSplit numPieces blockSize p contBlock
        = FlushAction.stripe
            ((p.piece / (contBlock / p.blocksInPiece)) * (contBlock / p.blocksInPiece))
            (min ((p.piece / (contBlock / p.blocksInPiece)) * (contBlock / p.blocksInPiece)
                + contBlock / p.blocksInPiece) numPieces)) := by
  refine ⟨?_, ?_, ?_⟩
  · intro rs re h
    unfold try_flush_hashed_action at h
    split at h
    · exact absurd h (by simp)
    · split at h
      · exact absurd h (by simp)
      · split at h
        · exact absurd h (by simp)
        · split at h
          · exact absurd h (by simp)
          · split at h
            · exact absurd h (by simp)
            · next hcond =>
              rw [Bool.or_eq_true, decide_eq_true_eq] at hcond
              push_neg at hcond
              injection h with h1 h2
              refine ⟨by omega, by simpa using hcond.2, h1.symm, ?_⟩
              rw [← h1]
              exact h2.symm
  · intro hor
    unfold try_flush_hashed_action
    split
    · exact Or.inl rfl
    · split
      · exact Or.inl rfl
      · split
        · exact Or.inl rfl
        · split
          · exact Or.inl rfl
          · split
            · exact Or.inr rfl
            · next hcond =>
              exfalso
              rw [Bool.or_eq_true, decide_eq_true_eq] at hcond
              rcases hor with hle | hsp
              · exact hcond (Or.inl hle)
              · exact hcond (Or.inr hsp)
  · intro h2le hsp hhash hnd hend hlim
    have g1 : (!p.hasHash && !p.hashingDone) = false := by
      rcases hhash with h | h <;> simp [h]
    have g3 : ((tfh_hashed_end blockSize p == 0) && !p.needReadback) = false := by
      rcases hend with h | h
      · simp [h]
      · simp [h]
    have g4 : ¬ (count_dirty_nonpending p.blocks (tfh_flush_end blockSize p)
        < tfh_block_limit p contBlock blockSize) := Nat.not_lt.mpr hlim
    have g5 : (decide (contBlock / p.blocksInPiece ≤ 1) || allowPieceSplit) = false := by
      rw [hsp]
      simp only [Bool.or_false, decide_eq_false_iff_not]
      omega
    unfold try_flush_hashed_action
    rw [g1, g3, g5]
    simp [hnd, g4]

/-- Witness for `stripe_flush_condition`: two full hashed pieces and
`cont_block` twice the piece's block count give the stripe over pieces
`[0, 2)`. -/
theorem stripe_flush_condition_witness :
    try_flush_hashed_action false 8 16384 cexStripePiece 8
      = FlushAction.stripe
          ((cexStripePiece.piece / (8 / cexStripePiece.blocksInPiece))
              * (8 / cexStripePiece.blocksInPiece))
          (min ((cexStripePiece.piece / (8 / cexStripePiece.blocksInPiece))
              * (8 / cexStripePiece.blocksInPiece) + 8 / cexStripePiece.blocksInPiece) 8) :=
  (stripe_flush_condition false 8 16384 cexStripePiece 8).2.2
    (by decide) rfl (Or.inr rfl) (by decide) (Or.inl (by decide)) (by decide)

/-! ## Fenced jobs (disk_io_thread.cpp lines 2452-2501, 1573-1591, 2414-2443) -/

/-- The job actions this development distinguishes. -/
inductive JobAction
  | write
  | clearPiece
  | flushStorage
  | other
deriving DecidableEq, Repr

/-- A disk job: an allocation identity and its action. -/
structure Job where
  id : Nat
  action : JobAction
deriving DecidableEq, Repr

/-- The per-storage fence state read by `raise_fence`: the number of
outstanding (issued, incomplete) jobs and whether a fence is already in
flight, plus the storage's list of jobs blocked behind the fence. -/
structure StorageFence where
  outstanding : Nat
  hasFence : Bool
  blockedJobs : List Job
deriving DecidableEq, Repr

/-- The three outcomes of `disk_job_fence::raise_fence`. -/
inductive FenceRet
  | postFence
  | postFlush
  | blocked
deriving DecidableEq, Repr

/-- Modelled from the spec: `disk_job_fence::raise_fence` is implemented in
storage code outside this snapshot.  Spec §4.2: it returns `PostFence` when
the storage has no outstanding jobs (the fence is raised and the primary may
run at once), `PostFlush` when outstanding jobs exist (the fence is raised
and the primary job is held back, blocked on the storage), and `Blocked`
when a fence is already in flight (the primary joins the wait list). -/
def raise_fence (st : StorageFence) (primary : Job) : FenceRet × StorageFence :=
  if st.hasFence then
    (FenceRet.blocked, { st with blockedJobs := st.blockedJobs ++ [primary] })
  else if st.outstanding = 0 then
    (FenceRet.postFence, { st with hasFence := true })
  else
    (FenceRet.postFlush,
      { st with hasFence := true, blockedJobs := st.blockedJobs ++ [primary] })

/-- The result of `add_fence_job`: the global job queue (head = front), the
storage's fence state, and whether the pre-allocated flush job was freed. -/
structure FenceJobResult where
  queue : List Job
  storage : StorageFence
  freedFlushJob : Bool
deriving DecidableEq, Repr

/-- `disk_io_thread::add_fence_job` (disk_io_thread.cpp:2452-2501): allocate
a `flush_storage` job `fj` (with fresh id `fjId`), raise the fence; on
`PostFence` push the fence job to the front of the queue and free `fj`; on
`PostFlush` push `fj` to the front instead; on `Blocked` queue neither. -/
def add_fence_job (st : StorageFence) (queue : List Job) (j : Job) (fjId : Nat) :
    FenceJobResult :=
  let fj : Job := { id := fjId, action := JobAction.flushStorage }
  match raise_fence st j with
  | (FenceRet.postFence, stNew) =>
    { queue := j :: queue, storage := stNew, freedFlushJob := true }
  | (FenceRet.postFlush, stNew) =>
    { queue := fj :: queue, storage := stNew, freedFlushJob := false }
  | (FenceRet.blocked, stNew) =>
    { queue := queue, storage := stNew, freedFlushJob := false }

/-- C3: for a fenced job on a storage with no fence in flight: with no
outstanding jobs (`PostFence`) the fence job goes to the front of the queue
and the pre-allocated flush job is freed and never queued; with outstanding
jobs (`PostFlush`) the flush job goes to the front instead and the fence job
is not queued — it is held blocked on the storage until the outstanding jobs
drain.  (`fjId` fresh: distinct from the ids already queued and from the
fence job's.) -/
theorem fence_job_routing (st : StorageFence) (q : List Job) (j : Job) (fjId : Nat)
    (hnof : st.hasFence = false)
    (hfq : ∀ x ∈ q, x.id ≠ fjId) (hfj : j.id ≠ fjId) (hjq : j ∉ q) :
    (st.outstanding = 0 →
      (add_fence_job st q j fjId).queue = j :: q
      ∧ (add_fence_job st q j fjId).freedFlushJob = true
      ∧ ({ id := fjId, action := JobAction.flushStorage } : Job)
          ∉ (add_fence_job st q j fjId).queue)
    ∧ (0 < st.outstanding →
      (add_fence_job st q j fjId).queue
        = ({ id := fjId, action := JobAction.flushStorage } : Job) :: q
      ∧ (add_fence_job st q j fjId).freedFlushJob = false
      ∧ j ∉ (add_fence_job st q j fjId).queue
      ∧ (add_fence_job st q j fjId).storage.blockedJobs = st.blockedJobs ++ [j]) := by
  constructor
  · intro hzero
    have hres : add_fence_job st q j fjId
        = { queue := j :: q, storage := { st with hasFence := true },
            freedFlushJob := true } := by
      unfold add_fence_job raise_fence
      rw [hnof]
      simp [hzero]
    rw [hres]
    refine ⟨rfl, rfl, ?_⟩
    intro hmem
    rcases List.mem_cons.mp hmem with h | h
    · exact hfj (by rw [← h])
    · exact hfq _ h rfl
  · intro hpos
    have hnz : ¬ st.outstanding = 0 := by omega
    have hres : add_fence_job st q j fjId
        = { queue := ({ id := fjId, action := JobAction.flushStorage } : Job) :: q,
            storage := ⟨st.outstanding, true, st.blockedJobs ++ [j]⟩,
            freedFlushJob := false } := by
      unfold add_fence_job raise_fence
      rw [hnof]
      simp [hnz]
    rw [hres]
    refine ⟨rfl, rfl, ?_, rfl⟩
    intro hmem
    rcases List.mem_cons.mp hmem with h | h
    · exact hfj (by rw [h])
    · exact hjq h

/-- Witness for `fence_job_routing`: a storage with one outstanding job gets
the flush job at the queue front and holds the fence job back. -/
theorem fence_job_routing_witness :
    (add_fence_job ⟨1, false, []⟩ [⟨5, JobAction.write⟩] ⟨6, JobAction.clearPiece⟩ 7).queue
      = ({ id := 7, action := JobAction.flushStorage } : Job) :: [⟨5, JobAction.write⟩]
    ∧ (add_fence_job ⟨1, false, []⟩ [⟨5, JobAction.write⟩] ⟨6, JobAction.clearPiece⟩ 7).freedFlushJob
      = false
    ∧ (⟨6, JobAction.clearPiece⟩ : Job)
      ∉ (add_fence_job ⟨1, false, []⟩ [⟨5, JobAction.write⟩] ⟨6, JobAction.clearPiece⟩ 7).queue
    ∧ (add_fence_job ⟨1, false, []⟩ [⟨5, JobAction.write⟩] ⟨6, JobAction.clearPiece⟩ 7).storage.blockedJobs
      = [] ++ [⟨6, JobAction.clearPiece⟩] :=
  (fence_job_routing ⟨1, false, []⟩ [⟨5, JobAction.write⟩] ⟨6, JobAction.clearPiece⟩ 7
    rfl (by decide) (by decide) (by decide)).2 (by decide)

/-! ## clear_piece (disk_io_thread.cpp lines 1573-1591 and 2414-2443) -/

/-- The piece state consulted by `do_clear_piece`: eviction-relevant
counters, the hash state it resets, and the piece-local job queue. -/
structure ClearPieceEntry where
  refcount : Nat
  numPendingBlocks : Nat
  hashingDone : Bool
  hasHash : Bool
  jobs : List Job
deriving DecidableEq, Repr

/-- Modelled from the spec: `block_cache::evict_piece` is in
`block_cache.cpp`, outside this snapshot.  Spec §4.1: eviction succeeds iff
`piece_refcount == 0` and no blocks are pending; on success the piece's
queued jobs are drained and returned. -/
def evict_piece (pe : ClearPieceEntry) : Option (List Job) :=
  if pe.refcount = 0 ∧ pe.numPendingBlocks = 0 then some pe.jobs else none

/-- The outcome of `do_clear_piece`: success returning the drained jobs
(each of which is aborted with `operation_aborted` and completed), or the
`retry_job` re-queue. -/
inductive ClearResult
  | done (aborted : List Job)
  | retryLater
deriving DecidableEq, Repr

/-- `disk_io_thread::do_clear_piece` (disk_io_thread.cpp:2414-2443): an
absent piece is immediate success with nothing to abort; otherwise the hash
state is reset and the piece is evicted — on success the drained jobs are
aborted, otherwise the job returns `retry_job` (the debug-only
`TORRENT_ASSERT(false)` before that return is a no-op in release builds). -/
def do_clear_piece (cached : Option ClearPieceEntry) : ClearResult :=
  match cached with
  | none => ClearResult.done []
  | some pe =>
    let cleared := { pe with hashingDone := false, hasHash := false }
    match evict_piece cleared with
    | some jobs => ClearResult.done jobs
    | none => ClearResult.retryLater

/-- `disk_io_thread::async_clear_piece` (disk_io_thread.cpp:1573-1591):
allocate a `clear_piece` job and submit it through `add_fence_job`. -/
def async_clear_piece (st : StorageFence) (queue : List Job) (jId fjId : Nat) :
    FenceJobResult :=
  add_fence_job st queue { id := jId, action := JobAction.clearPiece } fjId

/-- C4: a ClearPiece job is always submitted as a fenced job
(`async_clear_piece` goes through `add_fence_job` with a `clear_piece`
job); when `do_clear_piece` finds the piece but cannot evict it (outstanding
operations remain: a nonzero refcount or pending blocks), it returns
`RetryLater`; when the piece is absent or eviction succeeds it returns
success, aborting exactly the piece's queued jobs. -/
theorem clear_piece_fenced_retry (st : StorageFence) (queue : List Job)
    (jId fjId : Nat) (pe : ClearPieceEntry) :
    async_clear_piece st queue jId fjId
      = add_fence_job st queue { id := jId, action := JobAction.clearPiece } fjId
    ∧ (¬ (pe.refcount = 0 ∧ pe.numPendingBlocks = 0) →
      do_clear_piece (some pe) = ClearResult.retryLater)
    ∧ (pe.refcount = 0 → pe.numPendingBlocks = 0 →
      do_clear_piece (some pe) = ClearResult.done pe.jobs)
    ∧ do_clear_piece none = ClearResult.done [] := by
  refine ⟨rfl, ?_, ?_, rfl⟩
  · intro hno
    unfold do_clear_piece evict_piece
    simp only
    rw [if_neg hno]
  · intro hrc hpend
    unfold do_clear_piece evict_piece
    simp only
    rw [if_pos ⟨hrc, hpend⟩]

/-- Witness for `clear_piece_fenced_retry`: a pinned piece is not evicted
and the job is retried later. -/
theorem clear_piece_fenced_retry_witness :
    do_clear_piece (some ⟨1, 0, true, true, []⟩) = ClearResult.retryLater :=
  (clear_piece_fenced_retry ⟨0, false, []⟩ [] 1 2 ⟨1, 0, true, true, []⟩).2.1
    (by decide)
